import Mathlib

/-!
Verification of the dirsniff directory-classification engine.

The definitions below are a shallow embedding of the TypeScript sources
(`src/unnamed/part_001`, with `src/src/dirsniff.ts` as an earlier variant of
the same program).  Pure functions of the program become Lean functions;
JavaScript objects used as string-keyed count tables become insertion-ordered
association lists; JavaScript numbers arising in command-line parsing are
modelled with exact rationals.
-/

namespace Dirsniff

/-- One filesystem child as observed during a listing; embeds the `DirentStat`
interface of part_001 (lines 41-48).  The three `is*` closures become plain
booleans, `size` and `statError` stay optional. -/
structure DirentStat where
  isFile : Bool
  isDirectory : Bool
  isSymbolicLink : Bool
  name : String
  size : Option Nat
  statError : Option String
deriving DecidableEq

/-- Embeds the `EntryKind` enum of part_001 (lines 58-64). -/
inductive EntryKind where
  | Unknown
  | Error
  | File
  | Directory
  | SymbolicLink
deriving DecidableEq

/-- Embeds the `AdditionalInfoKind` enum of part_001 (lines 50-54). -/
inductive AdditionalInfoKind where
  | GitRepository
  | GitHubRepository
  | MacFinderFiles
deriving DecidableEq

/-- Index of the first test (in list order) that returns true, or
`tests.length` when none does; embeds the `let index = tests.length;
tests.some(...)` computation inside `collate` (part_001 lines 83-88). -/
def firstIdx {α : Type} (tests : List (α → Bool)) (d : α) : Nat :=
  match tests with
  | [] => 0
  | t :: ts => if t d then 0 else firstIdx ts d + 1

/-- `a[index].push(d)` on the accumulator array of arrays. -/
def pushAt {α : Type} (a : List (List α)) (i : Nat) (d : α) : List (List α) :=
  a.set i (a.getD i [] ++ [d])

/-- Embeds `collate` (part_001 lines 80-95): split one array into N+1 arrays
based on N tests; each element goes to the bucket of the first test it
passes, and the last bucket holds the elements that passed no test. -/
def collate {α : Type} (input : List α) (tests : List (α → Bool)) : List (List α) :=
  input.foldl (fun a d => pushAt a (firstIdx tests d) d)
    (List.replicate (tests.length + 1) [])

theorem firstIdx_le {α : Type} (tests : List (α → Bool)) (d : α) :
    firstIdx tests d ≤ tests.length := by
  induction tests with
  | nil => simp [firstIdx]
  | cons t ts ih =>
    simp only [firstIdx, List.length_cons]
    split
    · omega
    · omega

theorem pushAt_length {α : Type} (a : List (List α)) (i : Nat) (d : α) :
    (pushAt a i d).length = a.length := by
  simp [pushAt]

theorem getD_set_self {α : Type} (l : List (List α)) (i : Nat) (v : List α)
    (h : i < l.length) : (l.set i v).getD i [] = v := by
  induction l generalizing i with
  | nil => simp at h
  | cons x xs ih =>
    cases i with
    | zero => simp
    | succ j =>
      simp only [List.set_cons_succ, List.getD_cons_succ]
      exact ih j (by simpa using h)

theorem getD_set_ne {α : Type} (l : List (List α)) (i j : Nat) (v : List α)
    (hij : i ≠ j) : (l.set i v).getD j [] = l.getD j [] := by
  induction l generalizing i j with
  | nil => simp
  | cons x xs ih =>
    cases i with
    | zero =>
      cases j with
      | zero => exact absurd rfl hij
      | succ k => simp
    | succ i' =>
      cases j with
      | zero => simp
      | succ k =>
        simp only [List.set_cons_succ, List.getD_cons_succ]
        exact ih i' k (by omega)

theorem getD_pushAt {α : Type} (a : List (List α)) (i j : Nat) (d : α)
    (hi : i < a.length) :
    (pushAt a i d).getD j [] =
      if i = j then a.getD j [] ++ [d] else a.getD j [] := by
  by_cases hij : i = j
  · subst hij
    rw [pushAt, getD_set_self a i _ hi, if_pos rfl]
  · rw [pushAt, getD_set_ne a i j _ hij, if_neg hij]

theorem foldl_pushAt_getD {α : Type} (tests : List (α → Bool)) (input : List α) :
    ∀ (acc : List (List α)), tests.length < acc.length → ∀ j : Nat,
      (input.foldl (fun a d => pushAt a (firstIdx tests d) d) acc).getD j []
        = acc.getD j [] ++ input.filter (fun d => firstIdx tests d == j) := by
  induction input with
  | nil => intro acc _ j; simp
  | cons d rest ih =>
    intro acc hacc j
    have hlt : firstIdx tests d < acc.length :=
      lt_of_le_of_lt (firstIdx_le tests d) hacc
    have hacc' : tests.length < (pushAt acc (firstIdx tests d) d).length := by
      rw [pushAt_length]; exact hacc
    simp only [List.foldl_cons]
    rw [ih (pushAt acc (firstIdx tests d) d) hacc' j,
      getD_pushAt acc (firstIdx tests d) j d hlt]
    by_cases hj : firstIdx tests d = j
    · subst hj
      simp [List.filter_cons, List.append_assoc]
    · have : (firstIdx tests d == j) = false := by
        simpa using hj
      simp [List.filter_cons, this, hj]

theorem foldl_pushAt_length {α : Type} (tests : List (α → Bool)) (input : List α) :
    ∀ (acc : List (List α)),
      (input.foldl (fun a d => pushAt a (firstIdx tests d) d) acc).length
        = acc.length := by
  induction input with
  | nil => intro acc; simp
  | cons d rest ih =>
    intro acc
    simp only [List.foldl_cons]
    rw [ih, pushAt_length]

theorem getD_replicate_nil {α : Type} (n j : Nat) :
    (List.replicate n ([] : List α)).getD j [] = [] := by
  induction n generalizing j with
  | zero => simp
  | succ m ih =>
    cases j with
    | zero => simp
    | succ k => exact ih k

theorem collate_length {α : Type} (input : List α) (tests : List (α → Bool)) :
    (collate input tests).length = tests.length + 1 := by
  unfold collate
  rw [foldl_pushAt_length]
  simp

theorem collate_getD {α : Type} (input : List α) (tests : List (α → Bool)) (j : Nat) :
    (collate input tests).getD j [] = input.filter (fun d => firstIdx tests d == j) := by
  unfold collate
  rw [foldl_pushAt_getD tests input _ (by simp) j, getD_replicate_nil]
  simp

theorem count_collate_getD {α : Type} [DecidableEq α] (input : List α)
    (tests : List (α → Bool)) (j : Nat) (x : α) :
    ((collate input tests).getD j []).count x =
      if firstIdx tests x = j then input.count x else 0 := by
  rw [collate_getD]
  by_cases h : firstIdx tests x = j
  · rw [if_pos h]
    exact List.count_filter (by simp [h])
  · rw [if_neg h]
    rw [List.count_eq_zero]
    intro hmem
    have hx := (List.mem_filter.mp hmem).2
    simp at hx
    exact h hx

theorem sum_map_range_single (n j c : Nat) (f : Nat → Nat)
    (hf : ∀ i, f i = if j = i then c else 0) (hj : j < n) :
    (((List.range n).map f).sum) = c := by
  induction n with
  | zero => omega
  | succ m ih =>
    rw [List.range_succ, List.map_append, List.sum_append]
    by_cases hjm : j = m
    · have hzero : ∀ i ∈ List.range m, f i = 0 := by
        intro i hi
        have him : i < m := List.mem_range.mp hi
        rw [hf i, if_neg (by omega)]
      rw [List.sum_eq_zero (by simpa using hzero)]
      simp [hf m, hjm]
    · have hjm' : j < m := by omega
      rw [ih hjm']
      have hfm : f m = 0 := by rw [hf m, if_neg (by omega)]
      simp [hfm]

theorem collate_flatten_perm {α : Type} [DecidableEq α] (input : List α)
    (tests : List (α → Bool)) :
    ((collate input tests).flatten).Perm input := by
  rw [List.perm_iff_count]
  intro x
  rw [List.count_flatten]
  have hlen := collate_length input tests
  have hmap : (collate input tests).map (List.count x) =
      (List.range (tests.length + 1)).map
        (fun j => ((collate input tests).getD j []).count x) := by
    apply List.ext_getElem
    · simp [hlen]
    · intro i h1 h2
      simp only [List.getElem_map, List.getElem_range]
      congr 1
      rw [List.getD_eq_getElem]
  rw [hmap]
  exact sum_map_range_single (tests.length + 1) (firstIdx tests x) (input.count x)
    _ (fun i => count_collate_getD input tests i x)
    (by have := firstIdx_le tests x; omega)

/-- Hexadecimal digit, as matched by the character class `[0-9A-Fa-f]`. -/
def isHexDigit (c : Char) : Bool :=
  c.isDigit || ('a' ≤ c && c ≤ 'f') || ('A' ≤ c && c ≤ 'F')

/-- Split a character list at every occurrence of the separator, the
single-character case of JavaScript `String.prototype.split`. -/
def splitOnChar (sep : Char) (cs : List Char) : List (List Char) :=
  match cs with
  | [] => [[]]
  | a :: rest =>
    let r := splitOnChar sep rest
    if a == sep then [] :: r
    else
      match r with
      | [] => [[a]]
      | h :: t => (a :: h) :: t

/-- Embeds `UUIDRegex.test` (part_001 lines 240-242): either five dash-joined
hex groups of sizes 8-4-4-4-12, or 32 contiguous hex digits.  The dashed
alternative is expressed through splitting at dashes, which is exact because
the hex groups themselves contain no dash. -/
def isUUIDName (s : String) : Bool :=
  (let parts := splitOnChar '-' s.toList
   parts.map (fun p => p.length) == [8, 4, 4, 4, 12]
     && parts.all (fun p => p.all isHexDigit))
  || (s.length == 32 && s.toList.all isHexDigit)

/-- `d.name[0] === "."` of the bucket predicates: true iff the first character
is a dot (false for the empty name, as in JavaScript where `""[0]` is
`undefined`). -/
def nameStartsWithDot (s : String) : Bool :=
  s.toList.head? == some '.'

/-- The nine ordered bucket predicates passed to `collate` in `processDirents`
(part_001 lines 265-276): broken entry, symlink, unknown type, dot file,
normal file, dot directory, directory with extension, UUID directory, normal
directory. -/
def dirsniffTests : List (DirentStat → Bool) :=
  [ fun d => d.statError.isSome,
    fun d => d.isSymbolicLink,
    fun d => !d.isFile && !d.isDirectory,
    fun d => d.isFile && nameStartsWithDot d.name,
    fun d => d.isFile,
    fun d => d.isDirectory && nameStartsWithDot d.name,
    fun d => d.isDirectory && d.name.toList.contains '.',
    fun d => d.isDirectory && isUUIDName d.name,
    fun d => d.isDirectory ]

/-- Every entry satisfies one of the nine predicates, so the first matching
index is at most 8 and the catch-all bucket (index 9) can never receive an
entry. -/
theorem firstIdx_dirsniffTests_le (d : DirentStat) :
    firstIdx dirsniffTests d ≤ 8 := by
  rcases d with ⟨f, dir, sl, nm, sz, er⟩
  simp only [dirsniffTests, firstIdx]
  rcases er with _ | e <;> cases f <;> cases dir <;> cases sl <;>
    simp <;> (repeat' split) <;> simp

/-- Model of Node's `path.extname` for the names this program feeds it (names
of directory entries, never containing a path separator): the substring from
the last `.` to the end, or `""` when there is no dot or the only dot is the
leading character of the name.  (Node additionally special-cases the path
segments `.` and `..`, which cannot occur in a directory listing.) -/
def extname (s : String) : String :=
  let cs := s.toList
  let after := (cs.reverse.takeWhile (fun c => c ≠ '.')).reverse
  if cs.contains '.' then
    if cs.length - after.length - 1 = 0 then "" else String.mk ('.' :: after)
  else ""

/-- Embeds `includesAll` (part_001 lines 215-217): every needle appears in the
haystack. -/
def includesAll (dirents : List String) (filenames : List String) : Bool :=
  filenames.all (fun n => dirents.any (fun d => d == n))

/-- Embeds `includesAny` (part_001 lines 219-221): at least one needle appears
in the haystack. -/
def includesAny (dirents : List String) (filenames : List String) : Bool :=
  filenames.any (fun n => dirents.any (fun d => d == n))

/-- Embeds `includes` (part_001 lines 223-225): the first needle appears in
the haystack. -/
def includes (strings : List String) (str : List String) : Bool :=
  strings.contains (str.headD "")

/-- The five primary buckets plus the two derived extension lists that the
signature table of `autoIdentify` (part_001 lines 392-400) tests against. -/
structure Buckets where
  normalDirectories : List String
  dotDirectories : List String
  dirExtensions : List String
  normalFiles : List String
  dotFiles : List String
  fileExtensions : List String
  symbolicLinks : List String
deriving DecidableEq

/-- Which bucket a signature step reads (the `haystack` component of a step in
part_001's rule table). -/
inductive Hay where
  | normalDirectories
  | dotDirectories
  | dirExtensions
  | normalFiles
  | dotFiles
  | fileExtensions
  | symbolicLinks
deriving DecidableEq

def hayOf (b : Buckets) : Hay → List String
  | .normalDirectories => b.normalDirectories
  | .dotDirectories => b.dotDirectories
  | .dirExtensions => b.dirExtensions
  | .normalFiles => b.normalFiles
  | .dotFiles => b.dotFiles
  | .fileExtensions => b.fileExtensions
  | .symbolicLinks => b.symbolicLinks

/-- The three containment-test shapes used by the rule table (`includesAll`,
`includesAny`, `includes`). -/
inductive CheckKind where
  | all
  | any
  | mem
deriving DecidableEq

/-- One step of a signature: a (bucket, containment-test, needle-list)
triple. -/
structure Step where
  hay : Hay
  check : CheckKind
  needles : List String
deriving DecidableEq

/-- One named signature of the rule table. -/
structure SigEntry where
  name : String
  steps : List Step
deriving DecidableEq

/-- Dispatch of a step's check function against a bucket configuration,
exactly as `check(haystack, needles)` runs in part_001 lines 606-610. -/
def runStep (b : Buckets) (s : Step) : Bool :=
  match s.check with
  | .all => includesAll (hayOf b s.hay) s.needles
  | .any => includesAny (hayOf b s.hay) s.needles
  | .mem => includes (hayOf b s.hay) s.needles

/-- The static signature rule table of `autoIdentify` (part_001 lines
407-601), transcribed row by row in declaration order. -/
def sigTable : List SigEntry :=
  [ ⟨"Android Studio or IntelliJ IDEA project",
      [⟨.dotDirectories, .mem, [".idea"]⟩]⟩,
    ⟨"Clojure project",
      [⟨.normalFiles, .mem, ["project.clj"]⟩,
       ⟨.normalDirectories, .all, ["src", "test"]⟩]⟩,
    ⟨"Crystal project",
      [⟨.dotFiles, .all, [".gitignore", ".editorconfig"]⟩,
       ⟨.normalFiles, .all, ["LICENSE", "README.md", "shard.yml"]⟩,
       ⟨.normalDirectories, .all, ["src", "spec"]⟩]⟩,
    ⟨"D (DUB) project",
      [⟨.normalFiles, .any, ["dub.json", "dub.sdl"]⟩]⟩,
    ⟨"Dart package",
      [⟨.normalFiles, .mem, ["pubspec.yaml"]⟩,
       ⟨.normalDirectories, .mem, ["lib"]⟩]⟩,
    ⟨"Deno folder",
      [⟨.normalFiles, .any, ["deno.json", "deno.jsonc"]⟩]⟩,
    ⟨"Eclipse workspace",
      [⟨.dotFiles, .all, [".classpath", ".project"]⟩,
       ⟨.dotDirectories, .mem, [".settings"]⟩,
       ⟨.normalDirectories, .all, ["bin", "src"]⟩]⟩,
    ⟨"Flutter project",
      [⟨.dotDirectories, .all, [".dart_tool", ".idea"]⟩,
       ⟨.normalDirectories, .all, ["android", "ios", "lib", "test"]⟩,
       ⟨.dotFiles, .all, [".gitignore", ".metadata", ".packages"]⟩,
       ⟨.normalFiles, .all, ["demo_app.iml", "pubspec.lock", "pubspec.yaml"]⟩]⟩,
    ⟨"Ghidra project",
      [⟨.normalDirectories, .all, ["idata", "user", "versioned"]⟩,
       ⟨.normalFiles, .all, ["project.prp", "projectState"]⟩]⟩,
    ⟨"Git repository .git directory",
      [⟨.normalFiles, .all, ["HEAD", "config", "description"]⟩,
       ⟨.normalDirectories, .all, ["hooks", "info", "objects", "refs"]⟩]⟩,
    ⟨"Go module",
      [⟨.normalFiles, .mem, ["go.mod"]⟩]⟩,
    ⟨"Gradle project",
      [⟨.normalFiles, .mem, ["build.gradle"]⟩]⟩,
    ⟨"Hack project",
      [⟨.dotFiles, .mem, [".hhconfig"]⟩]⟩,
    ⟨"Julia package",
      [⟨.normalFiles, .mem, ["Project.toml"]⟩,
       ⟨.normalDirectories, .mem, ["src"]⟩]⟩,
    ⟨"macOS application",
      [⟨.normalDirectories, .mem, ["Contents"]⟩]⟩,
    ⟨"macOS application (wrapped)",
      [⟨.normalDirectories, .mem, ["Wrapper"]⟩,
       ⟨.symbolicLinks, .mem, ["WrappedBundle"]⟩]⟩,
    ⟨"Nim package",
      [⟨.normalDirectories, .all, ["src", "tests"]⟩,
       ⟨.fileExtensions, .mem, [".nimble"]⟩]⟩,
    ⟨"Perl CPAN module",
      [⟨.normalDirectories, .mem, ["t"]⟩,
       ⟨.normalFiles, .mem, ["Makefile.PL"]⟩]⟩,
    ⟨"Python package",
      [⟨.normalFiles, .mem, ["__init__.py"]⟩]⟩,
    ⟨"Racket package",
      [⟨.normalFiles, .mem, ["info.rkt"]⟩]⟩,
    ⟨"React Native project",
      [⟨.normalDirectories, .all, ["ios", "android"]⟩,
       ⟨.normalFiles, .all, ["index.js", "App.js"]⟩]⟩,
    ⟨"Retro Virtual Machine",
      [⟨.normalDirectories, .mem, ["snap"]⟩,
       ⟨.normalFiles, .mem, ["machine"]⟩]⟩,
    ⟨"Rust project",
      [⟨.normalFiles, .all, ["Cargo.lock", "Cargo.toml"]⟩,
       ⟨.normalDirectories, .all, ["src"]⟩]⟩,
    ⟨"Scala project",
      [⟨.normalFiles, .mem, ["build.sbt"]⟩,
       ⟨.normalDirectories, .all, ["project", "src", "target"]⟩]⟩,
    ⟨"Typescript project",
      [⟨.normalFiles, .mem, ["tsconfig.json"]⟩,
       ⟨.fileExtensions, .mem, [".ts"]⟩]⟩,
    ⟨"Visual Studio project",
      [⟨.dotDirectories, .mem, [".vs"]⟩,
       ⟨.fileExtensions, .mem, [".sln"]⟩]⟩,
    ⟨"Xcode project",
      [⟨.dirExtensions, .mem, [".xcodeproj"]⟩]⟩,
    ⟨"Zig project",
      [⟨.normalDirectories, .all, ["src", "zig-cache", "zig-out"]⟩,
       ⟨.normalFiles, .mem, ["build.zig"]⟩]⟩ ]

/-- A signature matches iff every one of its steps passes
(`entry.steps.every(...)`, part_001 lines 606-611). -/
def sigMatches (b : Buckets) (e : SigEntry) : Bool :=
  e.steps.all (runStep b)

/-- Embeds the evaluation loop of `autoIdentify` (part_001 lines 603-616):
walk the whole table and push the name of every matching entry. -/
def autoIdentify (b : Buckets) : List String :=
  sigTable.foldl (fun answers e => if sigMatches b e then answers ++ [e.name] else answers) []

theorem foldl_collect_filter_map (p : SigEntry → Bool) :
    ∀ (l : List SigEntry) (acc : List String),
      l.foldl (fun answers e => if p e then answers ++ [e.name] else answers) acc
        = acc ++ (l.filter p).map SigEntry.name := by
  intro l
  induction l with
  | nil => intro acc; simp
  | cons e rest ih =>
    intro acc
    simp only [List.foldl_cons, List.filter_cons]
    by_cases hp : p e
    · simp [hp, ih, List.append_assoc]
    · simp [hp, ih]

/-- `autoIdentify` is the names of the matching table rows, in table order. -/
theorem autoIdentify_eq_filter_map (b : Buckets) :
    autoIdentify b = (sigTable.filter (sigMatches b)).map SigEntry.name := by
  unfold autoIdentify
  rw [foldl_collect_filter_map]
  simp

/-- Embeds `countArrayFieldsToObject` (part_001 lines 698-707).  The
JavaScript object accumulator is modelled as an insertion-ordered association
list: a key already present has its count bumped in place, a new key is
appended, mirroring string-keyed property order of JS objects. -/
def countArrayFieldsToObject (array : List String) (foldcase : Bool) :
    List (String × Nat) :=
  array.foldl
    (fun obj str =>
      let lcs := if foldcase then String.mk (str.toList.map Char.toLower) else str
      if (obj.lookup lcs).isSome then
        obj.map (fun kv => if kv.1 = lcs then (kv.1, kv.2 + 1) else kv)
      else obj ++ [(lcs, 1)])
    []

/-- One named extension class of the collection heuristic. -/
structure ExtClass where
  name : String
  exts : List String
deriving DecidableEq

def audioexts : List String := [".mp3", ".mp4", ".m4a", ".ogg", ".ram", ".wav"]
def jpegexts : List String := [".jpeg", ".jpg"]
def otherimgexts : List String := [".gif", ".png", ".svg", ".tiff", ".webp"]
def videxts : List String := [".mov", ".mp4", ".webp"]
def jsexts : List String :=
  [".cjs", ".coffee", ".cts", ".js", ".jsx", ".mjs", ".mts", ".ts", ".tsx"]
def plexts : List String := [".pod", ".pl", ".pm"]
def wordexts : List String := [".doc", ".docx"]
def excelexts : List String := [".xls", ".xlsx"]

/-- The fixed ordered extension-class table of `checkForCollections`
(part_001 lines 642-668); spreads become list concatenations. -/
def extensionsTable : List ExtClass :=
  [ ⟨"audio", audioexts⟩,
    ⟨"jpeg", jpegexts⟩,
    ⟨"image", jpegexts ++ otherimgexts⟩,
    ⟨"video", videxts⟩,
    ⟨"media", jpegexts ++ otherimgexts ++ audioexts ++ videxts⟩,
    ⟨"web", [".css", ".htm", ".html", ".js"]⟩,
    ⟨"C source", [".c", ".h"]⟩,
    ⟨"C++ source", [".cpp", ".hpp"]⟩,
    ⟨"archive", [".bz2", ".gz", ".xz", ".zip"]⟩,
    ⟨"Perl script", plexts⟩,
    ⟨"JavaScript/ECMAScript/CoffeeScript/TypeScript", jsexts⟩,
    ⟨"script", jsexts ++ plexts ++ [".lua", ".php", ".py", ".sh"]⟩,
    ⟨"MS Word", wordexts⟩,
    ⟨"word processor", wordexts ++ [".odt"]⟩,
    ⟨"Excel", excelexts⟩,
    ⟨"spreadsheet", excelexts ++ [".ods"]⟩,
    ⟨"MS Office", wordexts ++ excelexts⟩,
    ⟨"LibreOffice", [".odt", ".ods"]⟩,
    ⟨"office", wordexts ++ excelexts ++ [".odt", ".ods"]⟩ ]

/-- The template string `a collection of ${num} ${kind} files`. -/
def renderCollection (num : Nat) (kind : String) : String :=
  "a collection of " ++ toString num ++ " " ++ kind ++ " files"

/-- Embeds `checkForCollections` (part_001 lines 619-696).  Branch 1: exactly
one distinct (case-folded) extension with count above 1.  Branch 2 (only when
branch 1's length test fails and at least one extension exists): the first
class in table order whose extension list contains every distinct extension,
reported with the length of the flat extension list.  `extensions.some`
stops at the first class that matches, i.e. `List.find?`. -/
def checkForCollections (fileextObj : List (String × Nat))
    (fileExtensions : List String) : Option String :=
  let fileExtensionsInThisDir := fileextObj.map Prod.fst
  if fileExtensionsInThisDir.length == 1 then
    let onlykey := fileExtensionsInThisDir.headD ""
    let numkeys := (fileextObj.lookup onlykey).getD 0
    if numkeys > 1 then some (renderCollection numkeys onlykey) else none
  else if fileExtensionsInThisDir.length > 0 then
    (extensionsTable.find?
        (fun e => fileExtensionsInThisDir.all (fun v => e.exts.contains v))).map
      (fun e => renderCollection fileExtensions.length e.name)
  else none

/-- Embeds `checkAdditionalNotes` (part_001 lines 370-390). -/
def checkAdditionalNotes (dotDirectories normalFiles dotFiles : List String) :
    List AdditionalInfoKind :=
  let additional : List AdditionalInfoKind := []
  let additional :=
    if includes dotDirectories [".git"] then
      if includes dotDirectories [".github"] then
        additional ++ [AdditionalInfoKind.GitHubRepository]
      else additional ++ [AdditionalInfoKind.GitRepository]
    else additional
  if includes normalFiles ["Icon\r"] || includes dotFiles [".DS_Store"] then
    additional ++ [AdditionalInfoKind.MacFinderFiles]
  else additional

/-- The mutable module-level configuration of part_001 (lines 7-9), threaded
explicitly.  `MAXDEPTH` is an `Int` because `-m=N` can store any integral
JavaScript number, including negative ones. -/
structure Config where
  MAXDEPTH : Int
  VERBOSE : Bool
  FOLLOWDOT : Bool
deriving DecidableEq

/-- Embeds the `DirectoryInfo` interface of part_001 (lines 66-77).  Fields
that the source leaves `undefined` in some paths are `Option`s; the verbose
summary (display-only) is not modelled. -/
inductive DirectoryInfo where
  | mk (name : String) (kind : EntryKind) (identified : Bool)
      (additionalInfo : Option (List AdditionalInfoKind))
      (identificationFailures : List String)
      (answers : Option (List String))
      (collections : Option String)
      (directoryInfos : List DirectoryInfo)

def DirectoryInfo.name : DirectoryInfo → String
  | .mk n _ _ _ _ _ _ _ => n

def DirectoryInfo.kind : DirectoryInfo → EntryKind
  | .mk _ k _ _ _ _ _ _ => k

def DirectoryInfo.identified : DirectoryInfo → Bool
  | .mk _ _ i _ _ _ _ _ => i

def DirectoryInfo.additionalInfo : DirectoryInfo → Option (List AdditionalInfoKind)
  | .mk _ _ _ a _ _ _ _ => a

def DirectoryInfo.identificationFailures : DirectoryInfo → List String
  | .mk _ _ _ _ f _ _ _ => f

def DirectoryInfo.answers : DirectoryInfo → Option (List String)
  | .mk _ _ _ _ _ a _ _ => a

def DirectoryInfo.collections : DirectoryInfo → Option String
  | .mk _ _ _ _ _ _ c _ => c

def DirectoryInfo.directoryInfos : DirectoryInfo → List DirectoryInfo
  | .mk _ _ _ _ _ _ _ d => d

/-- Names in bucket `i` of the partition of a listing, in listing order
(the `.map(dsa => dsa.map(ds => ds.name))` of part_001 line 276). -/
def bucketNames (dirents : List DirentStat) (i : Nat) : List String :=
  ((collate dirents dirsniffTests).getD i []).map DirentStat.name

/-- `normalFiles.filter(n => n.includes('.')).map(d => path.extname(d))`
(part_001 lines 281-283). -/
def fileExtensionsOfNames (names : List String) : List String :=
  (names.filter (fun n => n.toList.contains '.')).map extname

def fileExtensionsOf (dirents : List DirentStat) : List String :=
  fileExtensionsOfNames (bucketNames dirents 4)

/-- `directoriesWithExtensions.map(d => path.extname(d))` (part_001 line 284). -/
def dirExtensionsOf (dirents : List DirentStat) : List String :=
  (bucketNames dirents 6).map extname

def fileextObjOf (dirents : List DirentStat) : List (String × Nat) :=
  countArrayFieldsToObject (fileExtensionsOf dirents) true

/-- The bucket configuration handed to `autoIdentify` by `processDirents`
(part_001 lines 292-300). -/
def bucketsOf (dirents : List DirentStat) : Buckets :=
  ⟨bucketNames dirents 8, bucketNames dirents 5, dirExtensionsOf dirents,
   bucketNames dirents 4, bucketNames dirents 3, fileExtensionsOf dirents,
   bucketNames dirents 1⟩

def direntsAnswers (dirents : List DirentStat) : List String :=
  autoIdentify (bucketsOf dirents)

/-- The collection fallback is consulted only when `autoIdentify` returned no
answers (part_001 lines 302-311). -/
def direntsCollection (dirents : List DirentStat) : Option String :=
  if (direntsAnswers dirents).isEmpty then
    checkForCollections (fileextObjOf dirents) (fileExtensionsOf dirents)
  else none

def direntsIdentified (dirents : List DirentStat) : Bool :=
  !(direntsAnswers dirents).isEmpty || (direntsCollection dirents).isSome

/-- The recursion candidates (part_001 lines 343-350): normal directories,
then extension-bearing directories, then — only with the dot option — dot
directories followed by UUID directories. -/
def whichDirectoriesOf (cfg : Config) (dirents : List DirentStat) : List String :=
  bucketNames dirents 8 ++ bucketNames dirents 6 ++
    (if cfg.FOLLOWDOT then bucketNames dirents 5 ++ bucketNames dirents 7 else [])

/-- Model of Node's `path.join` as used here: parent path plus separator plus
child name (normalization is irrelevant to the claims under verification). -/
def pathJoin (parent child : String) : String :=
  parent ++ "/" ++ child

/-- Embeds `processDirents` (part_001 lines 227-368).  The recursive call
`processFilename(depth + 1, childdirname)` performs filesystem I/O and is
abstracted as the `recurse` argument; everything else follows the source:
an empty listing leaves `identified` at its initial `false` and fills no
optional field, otherwise answers, collection fallback, additional notes and
the depth-gated recursion over the candidate buckets are computed in order. -/
def processDirents (cfg : Config) (recurse : Nat → String → DirectoryInfo)
    (depth : Nat) (filename : String) (dirents : List DirentStat) :
    DirectoryInfo :=
  if dirents.isEmpty then
    .mk filename .Directory false none (bucketNames dirents 9) none none []
  else
    .mk filename .Directory (direntsIdentified dirents)
      (some (checkAdditionalNotes (bucketNames dirents 5) (bucketNames dirents 4)
        (bucketNames dirents 3)))
      (bucketNames dirents 9)
      (if (direntsAnswers dirents).isEmpty then none else some (direntsAnswers dirents))
      (direntsCollection dirents)
      (if direntsIdentified dirents then []
       else if (depth : Int) < cfg.MAXDEPTH then
         (whichDirectoriesOf cfg dirents).map
           (fun n => recurse (depth + 1) (pathJoin filename n))
       else [])

/-- The exact mathematical value of a string numeric literal, before any
IEEE-754 rounding: a finite value is the exact rational `mant * 10 ^ exp10`.
The JavaScript built-ins `Number` and `parseInt` themselves are modelled by
`jsNumberDouble` and `jsParseIntDouble` below, which round this exact value
to the binary64 grid. -/
inductive JSNum where
  | nan
  | inf (neg : Bool)
  | fin (mant : Int) (exp10 : Int)
deriving DecidableEq

/-- JavaScript whitespace as stripped by `Number`/`parseInt`: the ECMA-262
WhiteSpace set (TAB, VT, FF, SP, NBSP, ZWNBSP and the Unicode
space-separator category) together with the line terminators LF, CR, LS,
PS. -/
def isJsWSChar (c : Char) : Bool :=
  c == ' ' || c == '\t' || c == '\n' || c == '\r'
    || c == Char.ofNat 0x0B || c == Char.ofNat 0x0C
    || c == Char.ofNat 0xA0 || c == Char.ofNat 0xFEFF
    || c == Char.ofNat 0x1680
    || (Char.ofNat 0x2000 ≤ c && c ≤ Char.ofNat 0x200A)
    || c == Char.ofNat 0x2028 || c == Char.ofNat 0x2029
    || c == Char.ofNat 0x202F || c == Char.ofNat 0x205F
    || c == Char.ofNat 0x3000

def digitsToNat (ds : List Char) : Nat :=
  ds.foldl (fun a c => 10 * a + (c.toNat - 48)) 0

def hexDigitVal (c : Char) : Nat :=
  if c.isDigit then c.toNat - 48
  else if 'a' ≤ c && c ≤ 'f' then c.toNat - 87
  else c.toNat - 55

def hexToNat (ds : List Char) : Nat :=
  ds.foldl (fun a c => 16 * a + hexDigitVal c) 0

def octToNat (ds : List Char) : Nat :=
  ds.foldl (fun a c => 8 * a + (c.toNat - 48)) 0

def binToNat (ds : List Char) : Nat :=
  ds.foldl (fun a c => 2 * a + (c.toNat - 48)) 0

def isOctDigit (c : Char) : Bool := '0' ≤ c && c ≤ '7'

def isBinDigit (c : Char) : Bool := c == '0' || c == '1'

/-- Drop one leading `+` or `-`, if present. -/
def stripSign (cs : List Char) : List Char :=
  match cs with
  | c :: r => if c == '+' || c == '-' then r else cs
  | [] => []

/-- The exponent part of a string numeric literal: an optional sign followed
by at least one digit, consuming the whole remainder. -/
def parseExpPart (cs : List Char) : Option Int :=
  let sgn : Int := match cs with
    | c :: _ => if c == '-' then -1 else 1
    | [] => 1
  let rest := stripSign cs
  if rest.isEmpty || rest.any (fun c => !c.isDigit) then none
  else some (sgn * (digitsToNat rest : Int))

/-- An unsigned `StrUnsignedDecimalLiteral` without the `Infinity` form:
`digits [. digits] [exp]` or `. digits [exp]`, consuming the whole input;
the result `(mant, exp10)` denotes `mant * 10 ^ exp10`, with the fraction
digits absorbed into the mantissa. -/
def parseDecTail (cs : List Char) : Option (Int × Int) :=
  let d1 := cs.takeWhile (fun c => c.isDigit)
  let r1 := cs.dropWhile (fun c => c.isDigit)
  match r1 with
  | [] => if d1.isEmpty then none else some ((digitsToNat d1 : Int), 0)
  | c :: rest =>
    if c == '.' then
      let d2 := rest.takeWhile (fun x => x.isDigit)
      let r3 := rest.dropWhile (fun x => x.isDigit)
      if d1.isEmpty && d2.isEmpty then none
      else
        let m : Int := (digitsToNat (d1 ++ d2) : Int)
        match r3 with
        | [] => some (m, -(d2.length : Int))
        | c2 :: rexp =>
          if c2 == 'e' || c2 == 'E' then
            (parseExpPart rexp).map (fun e => (m, e - (d2.length : Int)))
          else none
    else if c == 'e' || c == 'E' then
      if d1.isEmpty then none
      else (parseExpPart rest).map (fun e => ((digitsToNat d1 : Int), e))
    else none

/-- A signed decimal literal or `Infinity`, after whitespace trimming. -/
def jsSignedDec (cs : List Char) : JSNum :=
  let neg : Bool := match cs with
    | c :: _ => c == '-'
    | [] => false
  let rest := stripSign cs
  if rest == "Infinity".toList then .inf neg
  else
    match parseDecTail rest with
    | some me => .fin (if neg then -me.1 else me.1) me.2
    | none => .nan

/-- The dispatch of `Number(string)` on the whitespace-trimmed character
list: empty means zero, `0x`/`0o`/`0b` integer literals (no sign allowed),
otherwise a signed decimal literal or `Infinity`; anything else is NaN. -/
def jsNumberTrimmed (cs : List Char) : JSNum :=
  match cs with
  | [] => .fin 0 0
  | '0' :: c :: rest =>
    if (c == 'x' || c == 'X') && !rest.isEmpty && rest.all isHexDigit then
      .fin (hexToNat rest) 0
    else if (c == 'o' || c == 'O') && !rest.isEmpty && rest.all isOctDigit then
      .fin (octToNat rest) 0
    else if (c == 'b' || c == 'B') && !rest.isEmpty && rest.all isBinDigit then
      .fin (binToNat rest) 0
    else jsSignedDec ('0' :: c :: rest)
  | _ => jsSignedDec cs

/-- Model of the exact value of JavaScript `Number(string)`: trim whitespace
and dispatch; the IEEE-754 built-in itself is `jsNumberDouble`. -/
def jsNumber (s : String) : JSNum :=
  jsNumberTrimmed (((s.toList.dropWhile isJsWSChar).reverse.dropWhile isJsWSChar).reverse)

/-- Model of JavaScript `parseInt(string, 10)`: skip leading whitespace, an
optional sign, then the longest prefix of decimal digits; `none` models NaN
(no digits at all). -/
def parseInt10 (s : String) : Option Int :=
  let cs := s.toList.dropWhile isJsWSChar
  let sgn : Int := match cs with
    | c :: _ => if c == '-' then -1 else 1
    | [] => 1
  let ds := (stripSign cs).takeWhile (fun c => c.isDigit)
  if ds.isEmpty then none else some (sgn * (digitsToNat ds : Int))

/-- An IEEE-754 binary64 value, held exactly: a finite value is the dyadic
rational `mant * 2 ^ exp2`.  `roundPosRatToDbl` below produces the canonical
form (odd mantissa), but `dblStrictEq` compares exact values and does not
depend on canonicity. -/
inductive Dbl where
  | nan
  | inf (neg : Bool)
  | fin (mant : Int) (exp2 : Int)
deriving DecidableEq

/-- Fuel-bounded floor base-2 logarithm; exact whenever `fuel` is at least
the true logarithm, so `natLog2 n := natLog2F n n` is always exact. -/
def natLog2F (fuel n : Nat) : Nat :=
  match fuel with
  | 0 => 0
  | fuel + 1 => if 2 ≤ n then natLog2F fuel (n / 2) + 1 else 0

def natLog2 (n : Nat) : Nat := natLog2F n n

/-- `a / b ≥ 2 ^ e`, for positive naturals and a signed exponent. -/
def geRatPow2 (a b : Nat) (e : Int) : Bool :=
  if 0 ≤ e then b * 2 ^ e.toNat ≤ a else b ≤ a * 2 ^ (-e).toNat

/-- The floor base-2 logarithm of the positive rational `a / b`: the initial
guess `log2 a - log2 b` is off by at most one (it always satisfies
`2^(e0-1) < a/b < 2^(e0+1)`), so one comparison corrects it. -/
def floorLog2Rat (a b : Nat) : Int :=
  let e0 : Int := (natLog2 a : Int) - (natLog2 b : Int)
  if geRatPow2 a b e0 then e0 else e0 - 1

/-- Round `n / d` to the nearest integer, ties to even (`d > 0`). -/
def roundDivHalfEven (n d : Nat) : Nat :=
  let q := n / d
  let r := n % d
  if 2 * r < d then q
  else if d < 2 * r then q + 1
  else if q % 2 == 0 then q else q + 1

/-- Round `(a / b) / 2 ^ k` to the nearest integer, ties to even. -/
def scaledRound (a b : Nat) (k : Int) : Nat :=
  if 0 ≤ k then roundDivHalfEven a (b * 2 ^ k.toNat)
  else roundDivHalfEven (a * 2 ^ (-k).toNat) b

/-- Strip factors of two from the mantissa (canonical form); fuel 53 covers
any mantissa below `2 ^ 54`. -/
def canonPow2 (fuel : Nat) (q : Nat) (k : Int) : Nat × Int :=
  match fuel with
  | 0 => (q, k)
  | fuel + 1 =>
    if q % 2 == 0 && !(q == 0) then canonPow2 fuel (q / 2) (k + 1) else (q, k)

/-- Round the positive rational `a / b` (`a, b ≥ 1`) to the nearest IEEE-754
binary64 value, ties to even: with `e` the floor base-2 exponent, divide onto
the 53-bit grid `2 ^ (e - 52)` — clamped below to the subnormal grid
`2 ^ -1074` — so the quotient lies in `[2^52, 2^53]` (or below `2^52` in the
subnormal range); a quotient of exactly `2^53` carries into the next binade;
a unit in top position beyond `2 ^ 971` overflows to infinity (this is
exactly the `≥ 2^1024 - 2^970` overflow threshold of round-to-nearest). -/
def roundPosRatToDbl (a b : Nat) : Dbl :=
  let e := floorLog2Rat a b
  let k : Int := max (e - 52) (-1074)
  let q := scaledRound a b k
  let qk : Nat × Int := if q == 2 ^ 53 then (2 ^ 52, k + 1) else (q, k)
  if 971 < qk.2 then .inf false
  else if qk.1 == 0 then .fin 0 0
  else
    let c := canonPow2 53 qk.1 qk.2
    .fin (c.1 : Int) c.2

/-- Round an exact literal value to binary64.  A zero mantissa gives `+0`
(JavaScript's `-0` is indistinguishable from `0` under `===` and under every
use this program makes of the value). -/
def roundJSNumToDbl : JSNum → Dbl
  | .nan => .nan
  | .inf neg => .inf neg
  | .fin mant exp10 =>
    if mant = 0 then .fin 0 0
    else
      let a : Nat := mant.natAbs * (if 0 ≤ exp10 then 10 ^ exp10.toNat else 1)
      let b : Nat := if 0 ≤ exp10 then 1 else 10 ^ (-exp10).toNat
      match roundPosRatToDbl a b with
      | .inf _ => .inf (decide (mant < 0))
      | .fin q k => .fin (if mant < 0 then -q else q) k
      | .nan => .nan

/-- Model of JavaScript `Number(string)`: the exact literal value rounded to
binary64 (ToNumber applies round-to-nearest, ties-to-even). -/
def jsNumberDouble (s : String) : Dbl :=
  roundJSNumToDbl (jsNumber s)

/-- Model of JavaScript `parseInt(string, 10)`: the exact integer of the
digit prefix rounded to binary64 (the spec converts the mathematical value to
a Number), or NaN when there are no digits. -/
def jsParseIntDouble (s : String) : Dbl :=
  match parseInt10 s with
  | none => .nan
  | some n => roundJSNumToDbl (.fin n 0)

/-- JavaScript `===` on numbers: NaN equals nothing, infinities match by
sign, finite values compare by exact value (doubles are dyadic rationals, so
the comparison cross-multiplies by the power-of-two gap). -/
def dblStrictEq : Dbl → Dbl → Bool
  | .nan, _ => false
  | _, .nan => false
  | .inf n1, .inf n2 => n1 == n2
  | .inf _, .fin _ _ => false
  | .fin _ _, .inf _ => false
  | .fin m1 e1, .fin m2 e2 =>
    if e1 ≤ e2 then m1 == m2 * 2 ^ (e2 - e1).toNat
    else m1 * 2 ^ (e1 - e2).toNat == m2

theorem dblStrictEq_nan_right (x : Dbl) : dblStrictEq x Dbl.nan = false := by
  cases x <;> rfl

/-- On finite values, `dblStrictEq` is exact-rational equality. -/
theorem dblStrictEq_fin_iff (m1 e1 m2 e2 : Int) :
    dblStrictEq (Dbl.fin m1 e1) (Dbl.fin m2 e2) = true
      ↔ (m1 : ℚ) * (2 : ℚ) ^ e1 = (m2 : ℚ) * (2 : ℚ) ^ e2 := by
  have h2 : (2 : ℚ) ≠ 0 := two_ne_zero
  simp only [dblStrictEq]
  by_cases he : e1 ≤ e2
  · rw [if_pos he, beq_iff_eq]
    have hsplit : (2 : ℚ) ^ e2 = (2 : ℚ) ^ ((e2 - e1).toNat) * (2 : ℚ) ^ e1 := by
      rw [← zpow_natCast (2 : ℚ) (e2 - e1).toNat, ← zpow_add₀ h2]
      congr 1
      omega
    rw [hsplit, ← mul_assoc, mul_left_inj' (zpow_ne_zero e1 h2)]
    constructor
    · intro hh
      exact_mod_cast hh
    · intro hh
      exact_mod_cast hh
  · rw [if_neg he, beq_iff_eq]
    have hsplit : (2 : ℚ) ^ e1 = (2 : ℚ) ^ ((e1 - e2).toNat) * (2 : ℚ) ^ e2 := by
      rw [← zpow_natCast (2 : ℚ) (e1 - e2).toNat, ← zpow_add₀ h2]
      congr 1
      omega
    rw [hsplit, ← mul_assoc, mul_left_inj' (zpow_ne_zero e2 h2)]
    constructor
    · intro hh
      exact_mod_cast hh
    · intro hh
      exact_mod_cast hh

/-- The state accumulated by `processCommandline` (part_001 lines 99-129):
the three module-level options plus the positional arguments. -/
structure CmdConfig where
  MAXDEPTH : Dbl := Dbl.fin 1 0
  VERBOSE : Bool := false
  FOLLOWDOT : Bool := false
  args : List String := []
deriving DecidableEq

/-- One iteration of the argument loop of `processCommandline` (part_001
lines 102-127): `-v` and `-d` for two-character flags, otherwise `-k=v`
key/value flags where only `m` is recognized and sets `MAXDEPTH` exactly when
`parseInt(v, 10) === Number(v)`; anything not starting with `-` is a
positional argument. -/
def stepArg (c : CmdConfig) (arg : String) : CmdConfig :=
  let a := arg.toList
  if a.head? == some '-' then
    if a.length == 2 then
      if a.getD 1 ' ' == 'v' then { c with VERBOSE := true }
      else if a.getD 1 ' ' == 'd' then { c with FOLLOWDOT := true }
      else c
    else
      let kv := splitOnChar '=' (a.drop 1)
      if kv.length == 2 && (kv.headD []).length == 1 then
        if (kv.headD []).head? == some 'm' then
          let v : String := String.mk (kv.getD 1 [])
          let numpi := jsParseIntDouble v
          let numnum := jsNumberDouble v
          if dblStrictEq numpi numnum then { c with MAXDEPTH := numnum } else c
        else c
      else c
  else { c with args := c.args ++ [arg] }

/-- Embeds `processCommandline` (part_001 lines 99-129): fold over
`argv.slice(2)`. -/
def processCommandline (argv : List String) : CmdConfig :=
  (argv.drop 2).foldl stepArg {}

/-! ### Helper lemmas about the containment tests and the rule table -/

theorem includesAll_iff (dirents filenames : List String) :
    includesAll dirents filenames = true ↔ ∀ n ∈ filenames, n ∈ dirents := by
  simp [includesAll]

theorem includesAny_iff (dirents filenames : List String) :
    includesAny dirents filenames = true ↔ ∃ n ∈ filenames, n ∈ dirents := by
  simp [includesAny]

theorem includes_iff (strings str : List String) :
    includes strings str = true ↔ str.headD "" ∈ strings := by
  simp [includes]

/-- Componentwise containment of bucket configurations, the effect of adding
entries to a directory listing. -/
def bucketsSub (b b' : Buckets) : Prop :=
  b.normalDirectories ⊆ b'.normalDirectories ∧ b.dotDirectories ⊆ b'.dotDirectories
    ∧ b.dirExtensions ⊆ b'.dirExtensions ∧ b.normalFiles ⊆ b'.normalFiles
    ∧ b.dotFiles ⊆ b'.dotFiles ∧ b.fileExtensions ⊆ b'.fileExtensions
    ∧ b.symbolicLinks ⊆ b'.symbolicLinks

theorem hayOf_subset {b b' : Buckets} (h : bucketsSub b b') (hay : Hay) :
    hayOf b hay ⊆ hayOf b' hay := by
  obtain ⟨h1, h2, h3, h4, h5, h6, h7⟩ := h
  cases hay <;> assumption

theorem runStep_mono {b b' : Buckets} (h : bucketsSub b b') (s : Step)
    (hs : runStep b s = true) : runStep b' s = true := by
  have hsub := hayOf_subset h s.hay
  cases hc : s.check <;> rw [runStep, hc] <;> rw [runStep, hc] at hs
  · rw [includesAll_iff] at hs ⊢
    exact fun n hn => hsub (hs n hn)
  · rw [includesAny_iff] at hs ⊢
    obtain ⟨n, hn, hmem⟩ := hs
    exact ⟨n, hn, hsub hmem⟩
  · rw [includes_iff] at hs ⊢
    exact hsub hs

theorem sigMatches_mono {b b' : Buckets} (h : bucketsSub b b') (e : SigEntry)
    (he : sigMatches b e = true) : sigMatches b' e = true := by
  rw [sigMatches, List.all_eq_true] at he ⊢
  exact fun s hs => runStep_mono h s (he s hs)

theorem sigTable_names_nodup : (sigTable.map SigEntry.name).Nodup := by decide

theorem mem_autoIdentify_iff (b : Buckets) (n : String) :
    n ∈ autoIdentify b ↔ ∃ e, e ∈ sigTable ∧ e.name = n ∧ sigMatches b e = true := by
  rw [autoIdentify_eq_filter_map]
  simp only [List.mem_map, List.mem_filter]
  constructor
  · rintro ⟨e, ⟨he, hm⟩, hn⟩
    exact ⟨e, he, hn, hm⟩
  · rintro ⟨e, he, hn, hm⟩
    exact ⟨e, ⟨he, hm⟩, hn⟩

/-! ### C1 -/

/-- C1: for every list of directory entries, the partitioner assigns every
entry to exactly one bucket — the bucket of the first predicate, in the fixed
declared order, that returns true for it — the buckets are pairwise disjoint,
their union is the full entry list, and the final catch-all bucket (index 9)
is always empty. -/
theorem C1_partition_exact (dirents : List DirentStat) :
    (collate dirents dirsniffTests).length = 10
    ∧ (∀ i : Nat, (collate dirents dirsniffTests).getD i []
        = dirents.filter (fun d => firstIdx dirsniffTests d == i))
    ∧ (∀ d ∈ dirents,
        d ∈ (collate dirents dirsniffTests).getD (firstIdx dirsniffTests d) [])
    ∧ (∀ (d : DirentStat) (i j : Nat),
        d ∈ (collate dirents dirsniffTests).getD i [] →
        d ∈ (collate dirents dirsniffTests).getD j [] → i = j)
    ∧ ((collate dirents dirsniffTests).flatten).Perm dirents
    ∧ (collate dirents dirsniffTests).getD 9 [] = [] := by
  refine ⟨?_, fun i => collate_getD dirents dirsniffTests i, ?_, ?_, ?_, ?_⟩
  · rw [collate_length]
    rfl
  · intro d hd
    rw [collate_getD]
    exact List.mem_filter.mpr ⟨hd, by simp⟩
  · intro d i j hi hj
    rw [collate_getD] at hi hj
    have hi' := (List.mem_filter.mp hi).2
    have hj' := (List.mem_filter.mp hj).2
    simp at hi' hj'
    omega
  · exact collate_flatten_perm dirents dirsniffTests
  · rw [collate_getD]
    apply List.filter_eq_nil_iff.mpr
    intro d _
    have := firstIdx_dirsniffTests_le d
    simp
    omega

/-- Witness for C1 at a concrete listing: a single normal file lands in the
bucket selected by its first matching predicate (index 4). -/
theorem C1_partition_exact_witness :
    (⟨true, false, false, "a.txt", some 0, none⟩ : DirentStat)
      ∈ (collate [⟨true, false, false, "a.txt", some 0, none⟩] dirsniffTests).getD
          (firstIdx dirsniffTests ⟨true, false, false, "a.txt", some 0, none⟩) [] :=
  (C1_partition_exact [⟨true, false, false, "a.txt", some 0, none⟩]).2.2.1
    ⟨true, false, false, "a.txt", some 0, none⟩ (by decide)

/-! ### C2 -/

/-- C2: for every bucket configuration, the signature rule table returns
exactly the names of the table entries all of whose steps pass: every
matching signature is included, no non-matching one is, and the returned
names appear in table declaration order. -/
theorem C2_all_matching_signatures (b : Buckets) :
    autoIdentify b = (sigTable.filter (sigMatches b)).map SigEntry.name
    ∧ (∀ n : String,
        n ∈ autoIdentify b ↔ ∃ e, e ∈ sigTable ∧ e.name = n ∧ sigMatches b e = true)
    ∧ (autoIdentify b).Sublist (sigTable.map SigEntry.name) := by
  refine ⟨autoIdentify_eq_filter_map b, mem_autoIdentify_iff b, ?_⟩
  rw [autoIdentify_eq_filter_map]
  exact (List.filter_sublist sigTable).map SigEntry.name

/-- Witness for C2: a listing with `Cargo.lock`, `Cargo.toml` and `src`
matches exactly the "Rust project" row. -/
theorem C2_all_matching_signatures_witness :
    "Rust project" ∈ autoIdentify ⟨["src"], [], [], ["Cargo.lock", "Cargo.toml"], [], [], []⟩ :=
  ((C2_all_matching_signatures ⟨["src"], [], [], ["Cargo.lock", "Cargo.toml"], [], [], []⟩).2.1
    "Rust project").mpr
    ⟨⟨"Rust project",
       [⟨Hay.normalFiles, CheckKind.all, ["Cargo.lock", "Cargo.toml"]⟩,
        ⟨Hay.normalDirectories, CheckKind.all, ["src"]⟩]⟩,
      by decide, rfl, by decide⟩

/-! ### C7 -/

/-- C7: signature matching is monotone in the listing: a signature appears in
the results as soon as all of its steps pass, results are preserved when the
buckets grow, and a signature disappears as soon as one of its steps fails —
in particular when a name required by a contains-all or contains-one step is
no longer in that step's bucket. -/
theorem C7_signature_monotonicity :
    (∀ (b : Buckets) (e : SigEntry), e ∈ sigTable → sigMatches b e = true →
       e.name ∈ autoIdentify b)
    ∧ (∀ (b b' : Buckets), bucketsSub b b' →
       ∀ n ∈ autoIdentify b, n ∈ autoIdentify b')
    ∧ (∀ (b' : Buckets) (e : SigEntry) (s : Step), e ∈ sigTable → s ∈ e.steps →
       runStep b' s = false → e.name ∉ autoIdentify b')
    ∧ (∀ (b' : Buckets) (e : SigEntry) (s : Step) (n : String),
       e ∈ sigTable → s ∈ e.steps →
       (s.check = CheckKind.all ∧ n ∈ s.needles
         ∨ s.check = CheckKind.mem ∧ s.needles.headD "" = n) →
       n ∉ hayOf b' s.hay → e.name ∉ autoIdentify b') := by
  have hdisappear : ∀ (b' : Buckets) (e : SigEntry) (s : Step), e ∈ sigTable →
      s ∈ e.steps → runStep b' s = false → e.name ∉ autoIdentify b' := by
    intro b' e s he hs hfail hmem
    obtain ⟨e', he', hname, hm⟩ := (mem_autoIdentify_iff b' e.name).mp hmem
    have : e' = e :=
      List.inj_on_of_nodup_map sigTable_names_nodup he' he hname
    subst this
    rw [sigMatches, List.all_eq_true] at hm
    rw [hm s hs] at hfail
    exact Bool.true_eq_false.mp hfail
  refine ⟨?_, ?_, hdisappear, ?_⟩
  · intro b e he hm
    exact (mem_autoIdentify_iff b e.name).mpr ⟨e, he, rfl, hm⟩
  · intro b b' hsub n hn
    obtain ⟨e, he, hname, hm⟩ := (mem_autoIdentify_iff b n).mp hn
    exact (mem_autoIdentify_iff b' n).mpr ⟨e, he, hname, sigMatches_mono hsub e hm⟩
  · intro b' e s n he hs hreq hnot
    refine hdisappear b' e s he hs ?_
    rcases hreq with ⟨hck, hn⟩ | ⟨hck, hn⟩
    · rw [runStep, hck]
      rw [Bool.eq_false_iff]
      intro hall
      exact hnot ((includesAll_iff _ _).mp hall n hn)
    · rw [runStep, hck]
      rw [Bool.eq_false_iff]
      intro hone
      rw [includes_iff, hn] at hone
      exact hnot hone

/-- Witness for C7: the "Go module" signature appears once `go.mod` is
listed, stays present when the listing grows, and is absent when `go.mod` is
missing. -/
theorem C7_signature_monotonicity_witness :
    "Go module" ∈ autoIdentify ⟨[], [], [], ["go.mod"], [], [], []⟩
    ∧ "Go module" ∈ autoIdentify ⟨[], [], [], ["go.mod", "extra"], [], [], []⟩
    ∧ "Go module" ∉ autoIdentify ⟨[], [], [], [], [], [], []⟩ :=
  ⟨C7_signature_monotonicity.1 ⟨[], [], [], ["go.mod"], [], [], []⟩
      ⟨"Go module", [⟨Hay.normalFiles, CheckKind.mem, ["go.mod"]⟩]⟩ (by decide) (by decide),
   C7_signature_monotonicity.2.1 ⟨[], [], [], ["go.mod"], [], [], []⟩
      ⟨[], [], [], ["go.mod", "extra"], [], [], []⟩
      ⟨by simp [List.subset_def], by simp [List.subset_def], by simp [List.subset_def],
       by simp [List.subset_def], by simp [List.subset_def], by simp [List.subset_def],
       by simp [List.subset_def]⟩
      "Go module" (by decide),
   C7_signature_monotonicity.2.2.2 ⟨[], [], [], [], [], [], []⟩
      ⟨"Go module", [⟨Hay.normalFiles, CheckKind.mem, ["go.mod"]⟩]⟩
      ⟨Hay.normalFiles, CheckKind.mem, ["go.mod"]⟩ "go.mod"
      (by decide) (by decide) (Or.inr ⟨rfl, rfl⟩) (by decide)⟩

/-! ### The collection heuristic over a directory's normal-file names -/

/-- The collection heuristic exactly as `processDirents` invokes it on the
normal-file names of a directory: derive `fileExtensions` and `fileextObj`
(part_001 lines 281-287) and run `checkForCollections`. -/
def collectionsOfFiles (normalFiles : List String) : Option String :=
  checkForCollections (countArrayFieldsToObject (fileExtensionsOfNames normalFiles) true)
    (fileExtensionsOfNames normalFiles)

/-! ### C5 -/

/-- C5: with exactly one distinct case-folded extension occurring `c` times,
the heuristic reports a collection of `c` such files exactly when `c`
exceeds 1; a lone `readme.txt` is not a collection while `a.txt`, `b.txt`
is "a collection of 2 .txt files". -/
theorem C5_single_extension_collection :
    (∀ (normalFiles : List String) (k : String) (c : Nat),
       countArrayFieldsToObject (fileExtensionsOfNames normalFiles) true = [(k, c)] →
       collectionsOfFiles normalFiles
         = if c > 1 then some (renderCollection c k) else none)
    ∧ collectionsOfFiles ["readme.txt"] = none
    ∧ collectionsOfFiles ["a.txt", "b.txt"] = some "a collection of 2 .txt files" := by
  refine ⟨?_, by decide, by decide⟩
  intro normalFiles k c h
  unfold collectionsOfFiles
  rw [h]
  simp [checkForCollections, List.lookup]

/-- Witness for C5: three markdown files yield "a collection of 3 .md
files". -/
theorem C5_single_extension_collection_witness :
    collectionsOfFiles ["a.md", "b.md", "c.md"] = some "a collection of 3 .md files" :=
  (C5_single_extension_collection.1 ["a.md", "b.md", "c.md"] ".md" 3 (by decide)).trans
    (by decide)

/-! ### C3 -/

/-- C3 as stated is false: the class-collection count is the number of
extension-bearing files, not the total file count.  A directory with a
dot-less `README` plus `image1.jpg`, `image2.jpeg` has 3 files but reports a
collection of 2. -/
theorem C3_counterexample :
    collectionsOfFiles ["README", "image1.jpg", "image2.jpeg"]
        = some "a collection of 2 jpeg files"
    ∧ (["README", "image1.jpg", "image2.jpeg"].length = 3)
    ∧ collectionsOfFiles ["README", "image1.jpg", "image2.jpeg"]
        ≠ some (renderCollection 3 "jpeg") := by
  refine ⟨by decide, rfl, by decide⟩

/-- C3 (amended): when the number of distinct case-folded extensions is not
one (and the class branch is reached), the first class in declaration order
whose extension list contains every distinct extension wins, the report
counts the extension-bearing files, zero distinct extensions report nothing,
and a no-match `find?` reports nothing; the jpg/jpeg example reports
"a collection of 2 jpeg files". -/
theorem C3_amended_class_collections :
    (∀ normalFiles : List String,
       2 ≤ (countArrayFieldsToObject (fileExtensionsOfNames normalFiles) true).length →
       collectionsOfFiles normalFiles
         = (extensionsTable.find? (fun e =>
              ((countArrayFieldsToObject (fileExtensionsOfNames normalFiles) true).map
                  Prod.fst).all (fun v => e.exts.contains v))).map
             (fun e => renderCollection (fileExtensionsOfNames normalFiles).length e.name))
    ∧ (∀ normalFiles : List String,
       countArrayFieldsToObject (fileExtensionsOfNames normalFiles) true = [] →
       collectionsOfFiles normalFiles = none)
    ∧ collectionsOfFiles ["image1.jpg", "image2.jpeg"]
        = some "a collection of 2 jpeg files" := by
  refine ⟨?_, ?_, by decide⟩
  · intro normalFiles h
    unfold collectionsOfFiles checkForCollections
    have h1 : (((countArrayFieldsToObject (fileExtensionsOfNames normalFiles) true).map
        Prod.fst).length == 1) = false := by
      rw [List.length_map]
      exact beq_false_of_ne (by omega)
    have h2 : (((countArrayFieldsToObject (fileExtensionsOfNames normalFiles) true).map
        Prod.fst).length > 0) := by
      simp only [List.length_map]
      omega
    simp only [h1, Bool.false_eq_true, if_false, if_pos h2]
  · intro normalFiles h
    unfold collectionsOfFiles checkForCollections
    rw [h]
    simp

/-- Witness for C3 (amended): two distinct extensions `.jpg`, `.png` are
covered first by the "image" class, counting both files. -/
theorem C3_amended_class_collections_witness :
    collectionsOfFiles ["a.jpg", "b.png"] = some "a collection of 2 image files" :=
  (C3_amended_class_collections.1 ["a.jpg", "b.png"] (by decide)).trans (by decide)

/-! ### C10 -/

/-- C10: files whose names contain no dot are excluded from the extension
list (and hence the frequency table): the heuristic's outcome only depends on
the dotted names, and a directory whose normal files all lack a dot yields no
collection description. -/
theorem C10_dotless_files_excluded :
    (∀ normalFiles : List String,
       fileExtensionsOfNames normalFiles
         = fileExtensionsOfNames (normalFiles.filter (fun n => n.toList.contains '.')))
    ∧ (∀ normalFiles : List String,
       collectionsOfFiles normalFiles
         = collectionsOfFiles (normalFiles.filter (fun n => n.toList.contains '.')))
    ∧ (∀ normalFiles : List String,
       (∀ n ∈ normalFiles, n.toList.contains '.' = false) →
       collectionsOfFiles normalFiles = none) := by
  have hfe : ∀ normalFiles : List String,
      fileExtensionsOfNames normalFiles
        = fileExtensionsOfNames (normalFiles.filter (fun n => n.toList.contains '.')) := by
    intro normalFiles
    unfold fileExtensionsOfNames
    rw [List.filter_filter]
    simp
  refine ⟨hfe, ?_, ?_⟩
  · intro normalFiles
    unfold collectionsOfFiles
    rw [← hfe]
  · intro normalFiles h
    have hnil : normalFiles.filter (fun n => n.toList.contains '.') = [] :=
      List.filter_eq_nil_iff.mpr
        (fun n hn => by rw [h n hn]; exact Bool.false_ne_true)
    unfold collectionsOfFiles
    unfold fileExtensionsOfNames
    rw [hnil]
    rfl

/-- Witness for C10: a directory holding only dot-less `README` and
`Makefile` yields no collection. -/
theorem C10_dotless_files_excluded_witness :
    collectionsOfFiles ["README", "Makefile"] = none :=
  C10_dotless_files_excluded.2.2 ["README", "Makefile"] (by decide)

/-! ### C8 -/

theorem includes_singleton (l : List String) (x : String) :
    includes l [x] = l.contains x := rfl

/-- Closed form of `checkAdditionalNotes`: the git note block followed by the
Finder note. -/
theorem checkAdditionalNotes_eq (dd nf df : List String) :
    checkAdditionalNotes dd nf df
      = (if ".git" ∈ dd then
           if ".github" ∈ dd then [AdditionalInfoKind.GitHubRepository]
           else [AdditionalInfoKind.GitRepository]
         else [])
        ++ (if "Icon\r" ∈ nf ∨ ".DS_Store" ∈ df then [AdditionalInfoKind.MacFinderFiles]
            else []) := by
  unfold checkAdditionalNotes
  rw [includes_singleton, includes_singleton, includes_singleton, includes_singleton]
  by_cases h1 : ".git" ∈ dd <;> by_cases h2 : ".github" ∈ dd <;>
    by_cases h3 : "Icon\r" ∈ nf <;> by_cases h4 : ".DS_Store" ∈ df <;>
    simp [h1, h2, h3, h4]

theorem processDirents_identified (cfg : Config) (recurse : Nat → String → DirectoryInfo)
    (depth : Nat) (fn : String) (dirents : List DirentStat) :
    (processDirents cfg recurse depth fn dirents).identified
      = (!dirents.isEmpty && direntsIdentified dirents) := by
  unfold processDirents
  by_cases h : dirents.isEmpty <;> simp [h, DirectoryInfo.identified]

theorem direntsIdentified_expand (dirents : List DirentStat) :
    direntsIdentified dirents
      = (!(autoIdentify (bucketsOf dirents)).isEmpty
         || (checkForCollections (fileextObjOf dirents) (fileExtensionsOf dirents)).isSome) := by
  unfold direntsIdentified direntsCollection direntsAnswers
  by_cases h : (autoIdentify (bucketsOf dirents)).isEmpty <;> simp [h]

/-- C8: the additional-notes detector emits the Git note exactly when `.git`
is present without `.github`, the GitHub note (and not the Git note) exactly
when both are present, the macOS-Finder note exactly when `Icon\r` is a
normal file or `.DS_Store` a dot file; notes can co-occur, and the
identified flag of a directory result never depends on them. -/
theorem C8_additional_notes (dotDirectories normalFiles dotFiles : List String) :
    (AdditionalInfoKind.GitRepository ∈ checkAdditionalNotes dotDirectories normalFiles dotFiles
       ↔ (".git" ∈ dotDirectories ∧ ".github" ∉ dotDirectories))
    ∧ (AdditionalInfoKind.GitHubRepository
           ∈ checkAdditionalNotes dotDirectories normalFiles dotFiles
       ↔ (".git" ∈ dotDirectories ∧ ".github" ∈ dotDirectories))
    ∧ ¬(AdditionalInfoKind.GitRepository
          ∈ checkAdditionalNotes dotDirectories normalFiles dotFiles
        ∧ AdditionalInfoKind.GitHubRepository
            ∈ checkAdditionalNotes dotDirectories normalFiles dotFiles)
    ∧ (AdditionalInfoKind.MacFinderFiles
           ∈ checkAdditionalNotes dotDirectories normalFiles dotFiles
       ↔ ("Icon\r" ∈ normalFiles ∨ ".DS_Store" ∈ dotFiles))
    ∧ (∀ (cfg : Config) (recurse : Nat → String → DirectoryInfo) (depth : Nat)
         (fn : String) (dirents : List DirentStat),
        (processDirents cfg recurse depth fn dirents).identified
          = (!dirents.isEmpty
             && (!(autoIdentify (bucketsOf dirents)).isEmpty
                 || (checkForCollections (fileextObjOf dirents)
                      (fileExtensionsOf dirents)).isSome))) := by
  rw [checkAdditionalNotes_eq]
  refine ⟨?_, ?_, ?_, ?_, ?_⟩
  · by_cases h1 : ".git" ∈ dotDirectories <;> by_cases h2 : ".github" ∈ dotDirectories <;>
      by_cases h34 : "Icon\r" ∈ normalFiles ∨ ".DS_Store" ∈ dotFiles <;>
      simp [h1, h2, h34]
  · by_cases h1 : ".git" ∈ dotDirectories <;> by_cases h2 : ".github" ∈ dotDirectories <;>
      by_cases h34 : "Icon\r" ∈ normalFiles ∨ ".DS_Store" ∈ dotFiles <;>
      simp [h1, h2, h34]
  · by_cases h1 : ".git" ∈ dotDirectories <;> by_cases h2 : ".github" ∈ dotDirectories <;>
      by_cases h34 : "Icon\r" ∈ normalFiles ∨ ".DS_Store" ∈ dotFiles <;>
      simp [h1, h2, h34]
  · by_cases h1 : ".git" ∈ dotDirectories <;> by_cases h2 : ".github" ∈ dotDirectories <;>
      by_cases h34 : "Icon\r" ∈ normalFiles ∨ ".DS_Store" ∈ dotFiles <;>
      simp [h1, h2, h34]
  · intro cfg recurse depth fn dirents
    rw [processDirents_identified, direntsIdentified_expand]

/-- Witness for C8: with `.git` and `.github` present and an `Icon\r` file,
the GitHub note and the Finder note co-occur and the plain Git note is
absent. -/
theorem C8_additional_notes_witness :
    AdditionalInfoKind.GitHubRepository
        ∈ checkAdditionalNotes [".git", ".github"] ["Icon\r"] []
    ∧ AdditionalInfoKind.MacFinderFiles
        ∈ checkAdditionalNotes [".git", ".github"] ["Icon\r"] []
    ∧ AdditionalInfoKind.GitRepository
        ∉ checkAdditionalNotes [".git", ".github"] ["Icon\r"] [] :=
  ⟨((C8_additional_notes [".git", ".github"] ["Icon\r"] []).2.1).mpr
      ⟨by decide, by decide⟩,
   ((C8_additional_notes [".git", ".github"] ["Icon\r"] []).2.2.2.1).mpr
      (Or.inl (by decide)),
   fun hmem =>
     ((((C8_additional_notes [".git", ".github"] ["Icon\r"] []).1).mp hmem).2)
       (by decide)⟩

/-! ### C4 -/

/-- C4: a directory result carries children exactly when the directory is
unidentified, nonempty, and the current depth is strictly below the
configured maximum; then it has one child per candidate, in
bucket-concatenation order (normal directories, extension-bearing
directories, then dot and UUID directories when the dot option is on); and
the identified flag is exactly "nonempty listing and (≥1 signature answer or
a collection description)". -/
theorem bucketNames_nil (i : Nat) : bucketNames [] i = [] := by
  unfold bucketNames
  rw [collate_getD]
  rfl

theorem C4_recursion_gating (cfg : Config) (recurse : Nat → String → DirectoryInfo)
    (depth : Nat) (filename : String) (dirents : List DirentStat) :
    (processDirents cfg recurse depth filename dirents).directoryInfos
      = (if (processDirents cfg recurse depth filename dirents).identified then []
         else if (depth : Int) < cfg.MAXDEPTH then
           (bucketNames dirents 8 ++ bucketNames dirents 6 ++
             (if cfg.FOLLOWDOT then bucketNames dirents 5 ++ bucketNames dirents 7
              else [])).map (fun n => recurse (depth + 1) (pathJoin filename n))
         else [])
    ∧ (processDirents cfg recurse depth filename dirents).identified
        = (!dirents.isEmpty
           && (!(autoIdentify (bucketsOf dirents)).isEmpty
               || (checkForCollections (fileextObjOf dirents)
                    (fileExtensionsOf dirents)).isSome)) := by
  refine ⟨?_, by rw [processDirents_identified, direntsIdentified_expand]⟩
  by_cases he : dirents.isEmpty
  · have hd : dirents = [] := List.isEmpty_iff.mp he
    subst hd
    simp [processDirents, DirectoryInfo.directoryInfos, DirectoryInfo.identified,
      bucketNames_nil]
  · by_cases hi : direntsIdentified dirents <;>
      simp [processDirents, he, hi, DirectoryInfo.directoryInfos,
        DirectoryInfo.identified, whichDirectoriesOf]

/-! ### C6 -/

/-- A stand-in for the recursive call on children (C6 concerns an empty
listing, where no recursion can happen). -/
def childStub : Nat → String → DirectoryInfo :=
  fun _ n => DirectoryInfo.mk n EntryKind.Directory false none [] none none []

/-- C6 as claimed holds in src/src/dirsniff.ts (lines 185-188 set
`identified = true` and print "empty"), but part_001's `processDirents`
leaves the `identified` flag of an empty directory at `false`: only the
renderer prints "empty" for any childless result.  No recursion is attempted
and no answers are recorded. -/
theorem C6_empty_directory_flag :
    (processDirents ⟨1, false, false⟩ childStub 0 "root" []).identified = false
    ∧ (processDirents ⟨1, false, false⟩ childStub 0 "root" []).directoryInfos = []
    ∧ (processDirents ⟨1, false, false⟩ childStub 0 "root" []).answers = none :=
  ⟨rfl, rfl, rfl⟩

/-! ### C9 -/

theorem splitOnChar_of_not_mem (sep : Char) (cs : List Char) (h : sep ∉ cs) :
    splitOnChar sep cs = [cs] := by
  induction cs with
  | nil => rfl
  | cons a rest ih =>
    simp only [List.mem_cons, not_or] at h
    obtain ⟨h1, h2⟩ := h
    have ha : (a == sep) = false := beq_false_of_ne (Ne.symm h1)
    rw [splitOnChar, ih h2]
    simp [ha]

theorem splitOnChar_ne_nil (sep : Char) (cs : List Char) :
    splitOnChar sep cs ≠ [] := by
  induction cs with
  | nil => simp [splitOnChar]
  | cons a rest ih =>
    rw [splitOnChar]
    by_cases ha : (a == sep) = true
    · simp [ha]
    · rcases hr : splitOnChar sep rest with _ | ⟨h0, t⟩
      · exact absurd hr ih
      · simp [ha, hr]

theorem splitOnChar_length (sep : Char) (cs : List Char) :
    (splitOnChar sep cs).length = cs.count sep + 1 := by
  induction cs with
  | nil => simp [splitOnChar]
  | cons a rest ih =>
    rw [splitOnChar]
    by_cases ha : (a == sep) = true
    · have haeq : a = sep := eq_of_beq ha
      simp [ha, ih, List.count_cons, haeq]
    · rcases hr : splitOnChar sep rest with _ | ⟨h0, t⟩
      · exact absurd hr (splitOnChar_ne_nil sep rest)
      · rw [hr] at ih
        have hane : ¬ (a = sep) := fun he => absurd (by simp [he]) ha
        simp only [ha, Bool.false_eq_true, if_false]
        simp only [List.length_cons] at ih ⊢
        rw [List.count_cons]
        simp [hane, ih]

theorem splitOnChar_m_cons (l : List Char) :
    splitOnChar '=' ('m' :: '=' :: l) = ['m'] :: splitOnChar '=' l := by
  have h2 : splitOnChar '=' ('=' :: l) = [] :: splitOnChar '=' l := by
    rw [splitOnChar]
    simp
  rw [splitOnChar, h2]
  simp

theorem splitOnChar_m_eq (l : List Char) (h : '=' ∉ l) :
    splitOnChar '=' ('m' :: '=' :: l) = [['m'], l] := by
  rw [splitOnChar_m_cons, splitOnChar_of_not_mem '=' l h]

/-- Reduction of one `-m=...` argument through `stepArg`: with no second `=`
in the value, the flag reaches the `m` case and applies the
`parseInt === Number` test. -/
theorem stepArg_m_flag (c : CmdConfig) (l : List Char) (h : '=' ∉ l) :
    stepArg c (String.mk ('-' :: 'm' :: '=' :: l))
      = (if dblStrictEq (jsParseIntDouble (String.mk l)) (jsNumberDouble (String.mk l))
         then { c with MAXDEPTH := jsNumberDouble (String.mk l) }
         else c) := by
  have hlen : (('-' :: 'm' :: '=' :: l).length == 2) = false := by
    simp only [List.length_cons]
    exact beq_false_of_ne (by omega)
  simp only [stepArg, String.toList, List.head?_cons, List.length_cons,
    List.drop_succ_cons, List.drop_zero, splitOnChar_m_eq l h, hlen,
    List.headD_cons, List.getD_cons_succ, List.getD_cons_zero]
  simp

/-- A value containing a second `=` makes the key/value split have three or
more parts, so the whole argument is ignored (part_001 line 116). -/
theorem stepArg_m_eq_mem (c : CmdConfig) (l : List Char) (h : '=' ∈ l) :
    stepArg c (String.mk ('-' :: 'm' :: '=' :: l)) = c := by
  have hlen : (('-' :: 'm' :: '=' :: l).length == 2) = false := by
    simp only [List.length_cons]
    exact beq_false_of_ne (by omega)
  have hkv : ¬ ((splitOnChar '=' l).length = 1) := by
    have hslen := splitOnChar_length '=' l
    have hcount : 0 < l.count '=' := List.count_pos_iff.mpr h
    omega
  simp only [stepArg, String.toList, List.head?_cons, List.length_cons,
    List.drop_succ_cons, List.drop_zero, splitOnChar_m_cons, hlen]
  simp [hkv]

/-- Characters that survive whitespace trimming: a non-whitespace member of
the string is a member of the trimmed character list. -/
theorem mem_trim_of_mem (cs : List Char) (c : Char) (hw : isJsWSChar c = false)
    (h : c ∈ cs) :
    c ∈ ((cs.dropWhile isJsWSChar).reverse.dropWhile isJsWSChar).reverse := by
  have step : ∀ l : List Char, c ∈ l → c ∈ l.dropWhile isJsWSChar := by
    intro l hl
    have hsp : c ∈ l.takeWhile isJsWSChar ++ l.dropWhile isJsWSChar := by
      rw [List.takeWhile_append_dropWhile]
      exact hl
    rcases List.mem_append.mp hsp with h1 | h2
    · have hww := List.mem_takeWhile_imp h1
      rw [hw] at hww
      exact absurd hww Bool.false_ne_true
    · exact h2
  rw [List.mem_reverse]
  apply step
  rw [List.mem_reverse]
  exact step cs h

theorem mem_stripSign (cs : List Char) (h : '=' ∈ cs) : '=' ∈ stripSign cs := by
  rcases cs with _ | ⟨a, r⟩
  · simp at h
  · simp only [stripSign]
    split
    · rename_i ha
      rcases List.mem_cons.mp h with h1 | h2
      · exfalso
        rw [← h1] at ha
        exact absurd ha (by decide)
      · exact h2
    · exact h

theorem mem_dropWhile_digits (cs : List Char) (h : '=' ∈ cs) :
    '=' ∈ cs.dropWhile (fun c => c.isDigit) := by
  have hsp : '=' ∈ cs.takeWhile (fun c => c.isDigit)
      ++ cs.dropWhile (fun c => c.isDigit) := by
    rw [List.takeWhile_append_dropWhile]
    exact h
  rcases List.mem_append.mp hsp with h1 | h2
  · exact absurd (List.mem_takeWhile_imp h1) (by decide)
  · exact h2

theorem parseExpPart_none_of_mem (cs : List Char) (h : '=' ∈ cs) :
    parseExpPart cs = none := by
  have hm := mem_stripSign cs h
  have hany : (stripSign cs).any (fun c => !c.isDigit) = true :=
    List.any_eq_true.mpr ⟨'=', hm, by decide⟩
  simp [parseExpPart, hany]

theorem parseDecTail_none_of_mem (cs : List Char) (h : '=' ∈ cs) :
    parseDecTail cs = none := by
  have hd := mem_dropWhile_digits cs h
  unfold parseDecTail
  rcases hr : cs.dropWhile (fun c => c.isDigit) with _ | ⟨c, rest⟩
  · rw [hr] at hd
    simp at hd
  · rw [hr] at hd
    simp only [hr]
    rcases List.mem_cons.mp hd with hc | hrest
    · rw [← hc]
      simp
    · by_cases hdot : (c == '.') = true
      · have hr3m := mem_dropWhile_digits rest hrest
        rcases hr3 : rest.dropWhile (fun x => x.isDigit) with _ | ⟨c2, rexp⟩
        · rw [hr3] at hr3m
          simp at hr3m
        · rw [hr3] at hr3m
          rcases List.mem_cons.mp hr3m with hc2 | hrexp
          · have hc2e : (c2 == 'e' || c2 == 'E') = false := by
              rw [← hc2]
              decide
            simp [hdot, hr3, hc2e]
          · simp [hdot, hr3, parseExpPart_none_of_mem rexp hrexp]
      · by_cases he : (c == 'e' || c == 'E') = true
        · simp [hdot, he, parseExpPart_none_of_mem rest hrest]
        · simp [hdot, he]

theorem jsSignedDec_nan_of_mem (cs : List Char) (h : '=' ∈ cs) :
    jsSignedDec cs = JSNum.nan := by
  have hm := mem_stripSign cs h
  have hne : stripSign cs ≠ ['I', 'n', 'f', 'i', 'n', 'i', 't', 'y'] := by
    intro he
    rw [he] at hm
    revert hm
    decide
  simp [jsSignedDec, hne, parseDecTail_none_of_mem _ hm]

/-- A value containing `=` is not a numeric literal: the dispatch yields
NaN. -/
theorem jsNumberTrimmed_nan_of_mem (cs : List Char) (h : '=' ∈ cs) :
    jsNumberTrimmed cs = JSNum.nan := by
  unfold jsNumberTrimmed
  split
  · simp at h
  · rename_i c rest
    rcases List.mem_cons.mp h with h0 | hcr
    · exact absurd h0 (by decide)
    · rcases List.mem_cons.mp hcr with hc | hrest
      · have g1 : (c == 'x' || c == 'X') = false := by
          rw [← hc]
          decide
        have g2 : (c == 'o' || c == 'O') = false := by
          rw [← hc]
          decide
        have g3 : (c == 'b' || c == 'B') = false := by
          rw [← hc]
          decide
        simp [g1, g2, g3, jsSignedDec_nan_of_mem _ h]
      · have g1 : rest.all isHexDigit = false := by
          rw [Bool.eq_false_iff]
          intro hall
          exact absurd (List.all_eq_true.mp hall '=' hrest) (by decide)
        have g2 : rest.all isOctDigit = false := by
          rw [Bool.eq_false_iff]
          intro hall
          exact absurd (List.all_eq_true.mp hall '=' hrest) (by decide)
        have g3 : rest.all isBinDigit = false := by
          rw [Bool.eq_false_iff]
          intro hall
          exact absurd (List.all_eq_true.mp hall '=' hrest) (by decide)
        simp [g1, g2, g3, jsSignedDec_nan_of_mem _ h]
  · rename_i hne1 hne2
    exact jsSignedDec_nan_of_mem _ h

/-- A value containing `=` is not a numeric literal: `Number` yields NaN. -/
theorem jsNumber_nan_of_mem (v : String) (h : '=' ∈ v.toList) :
    jsNumber v = JSNum.nan := by
  unfold jsNumber
  exact jsNumberTrimmed_nan_of_mem _ (mem_trim_of_mem v.toList '=' (by decide) h)

/-- C9: a `-m=V` argument sets the maximum depth to V's numeric value — the
IEEE-754 double `Number(V)` — exactly when `parseInt(V, 10) === Number(V)`,
both built-ins modelled as exact binary64 values; otherwise the prior value
is kept (the default `1` when nothing was set), and the argument contributes
nothing to the positional list.  In particular non-numeric, fractional, hex
and exponent values are silently ignored, while plain integers — and
fractional strings whose double rounding collapses onto the parseInt value,
such as 10000000000000000.9 (both sides round to 1e16 = 152587890625·2^16) —
are accepted. -/
theorem C9_maxdepth_flag :
    (∀ (c : CmdConfig) (v : String),
      stepArg c (String.mk ('-' :: 'm' :: '=' :: v.toList))
        = (if dblStrictEq (jsParseIntDouble v) (jsNumberDouble v) then
             { c with MAXDEPTH := jsNumberDouble v }
           else c))
    ∧ (∀ v : String,
      (processCommandline
          ["node", "dirsniff", String.mk ('-' :: 'm' :: '=' :: v.toList)]).MAXDEPTH
        = (if dblStrictEq (jsParseIntDouble v) (jsNumberDouble v) then
             jsNumberDouble v
           else Dbl.fin 1 0))
    ∧ (∀ v : String,
      (processCommandline
          ["node", "dirsniff", String.mk ('-' :: 'm' :: '=' :: v.toList)]).args = [])
    ∧ (processCommandline ["node", "dirsniff", "-m=3"]).MAXDEPTH = Dbl.fin 3 0
    ∧ (processCommandline ["node", "dirsniff", "-m=abc"]).MAXDEPTH = Dbl.fin 1 0
    ∧ (processCommandline ["node", "dirsniff", "-m=1.5"]).MAXDEPTH = Dbl.fin 1 0
    ∧ (processCommandline ["node", "dirsniff", "-m=0x10"]).MAXDEPTH = Dbl.fin 1 0
    ∧ (processCommandline ["node", "dirsniff", "-m=1e2"]).MAXDEPTH = Dbl.fin 1 0
    ∧ (processCommandline ["node", "dirsniff", "-m=10000000000000000.9"]).MAXDEPTH
        = Dbl.fin 152587890625 16 := by
  have hstep : ∀ (c : CmdConfig) (v : String),
      stepArg c (String.mk ('-' :: 'm' :: '=' :: v.toList))
        = (if dblStrictEq (jsParseIntDouble v) (jsNumberDouble v) then
             { c with MAXDEPTH := jsNumberDouble v }
           else c) := by
    intro c v
    obtain ⟨l⟩ := v
    by_cases hm : '=' ∈ l
    · show stepArg c (String.mk ('-' :: 'm' :: '=' :: l)) = _
      rw [stepArg_m_eq_mem c l hm]
      have hnan : jsNumberDouble (String.mk l) = Dbl.nan := by
        unfold jsNumberDouble
        rw [jsNumber_nan_of_mem (String.mk l) hm]
        rfl
      rw [hnan, dblStrictEq_nan_right]
      simp
    · show stepArg c (String.mk ('-' :: 'm' :: '=' :: l)) = _
      exact stepArg_m_flag c l hm
  refine ⟨hstep, ?_, ?_, by decide, by decide, by decide, by decide, by decide,
    by decide⟩
  · intro v
    show (stepArg {} (String.mk ('-' :: 'm' :: '=' :: v.toList))).MAXDEPTH = _
    rw [hstep {} v]
    by_cases h : dblStrictEq (jsParseIntDouble v) (jsNumberDouble v) = true
    · simp [h]
    · simp [h]
  · intro v
    show (stepArg {} (String.mk ('-' :: 'm' :: '=' :: v.toList))).args = _
    rw [hstep {} v]
    by_cases h : dblStrictEq (jsParseIntDouble v) (jsNumberDouble v) = true
    · simp [h]
    · simp [h]

end Dirsniff
